import Mathlib

/-!
# ConnectZ game engine: a shallow embedding of the core of `ConnectZ.py`

This file translates the `GameBoard` class of the ConnectZ repository into
Lean definitions and proves properties of the board-state model, the
win detection, the evaluator, the move enumeration and the alpha-beta
minimax search.

Modelling conventions:
* grid cells are a four-valued inductive (`Cell`), the grid itself is a total
  function `Int → Int → Cell` updated through `setCell`; every read performed
  by the Python code is guarded by the same bounds checks as in the source;
* machine integers of the source (counters, turn_count, scores) are `Int`;
* the Python floats used for alpha/beta are only ever `-inf`, `+inf`, or exact
  integer evaluation scores, so they are modelled by the three-constructor
  type `XInt` with the corresponding order;
* each mutating Python method becomes a function `GameState → ... → GameState × ...`
  returning the updated state together with the returned flags; a method that
  rejects its input returns the state unchanged (this models the
  no-exception contract: every modelled operation is total);
* the `while` loops of `check_win` / `evaluate_position` walk at most `size`
  cells while in bounds, so they are modelled with fuel `size`, which is
  provably sufficient.
-/

namespace ConnectZ

/-- A grid cell: empty (`' '`), the human piece (`'X'`), the engine piece
(`'O'`) or a blocked tile (`'B'`). -/
inductive Cell where
  | empty
  | X
  | O
  | B
deriving DecidableEq

/-- The player whose turn it is (`self.turn` in the source is the character
`'X'` or `'O'`). -/
inductive Player where
  | X
  | O
deriving DecidableEq

/-- The piece character of a player. -/
def Cell.ofPlayer : Player → Cell
  | .X => .X
  | .O => .O

/-- `'O' if self.turn == 'X' else 'X'`. -/
def Player.other : Player → Player
  | .X => .O
  | .O => .X

/-- The whole mutable state of a `GameBoard` instance. -/
@[ext]
structure GameState where
  size : Nat
  target : Nat
  board : Int → Int → Cell
  turn : Player
  last_move : Option (Int × Int)
  game_over : Bool
  user_blocks_remaining : Int
  ai_blocks_remaining : Int
  user_power_moves_remaining : Int
  ai_power_moves_remaining : Int
  winning_sequence : List (Int × Int)
  last_removed_tile : Option (Int × Int)
  turn_count : Int

/-- Functional update of one grid cell (`self.board[x][y] = c`). -/
def setCell (b : Int → Int → Cell) (x y : Int) (c : Cell) : Int → Int → Cell :=
  fun a b2 => if a = x ∧ b2 = y then c else b a b2

/-- The bounds check `0 <= x < self.size and 0 <= y < self.size`. -/
def inb (s : GameState) (x y : Int) : Bool :=
  decide (0 ≤ x) && decide (x < (s.size : Int)) && decide (0 ≤ y) && decide (y < (s.size : Int))

/-- `is_valid_move`: in bounds and on an empty cell. -/
def is_valid_move (s : GameState) (x y : Int) : Bool :=
  inb s x y && decide (s.board x y = Cell.empty)

/-- `is_valid_block`: identical predicate to `is_valid_move`. -/
def is_valid_block (s : GameState) (x y : Int) : Bool :=
  is_valid_move s x y

/-- `is_valid_remove`: in bounds and holding the opponent's piece, the
opponent being taken relative to `self.turn`. -/
def is_valid_remove (s : GameState) (x y : Int) : Bool :=
  inb s x y && decide (s.board x y = Cell.ofPlayer s.turn.other)

/-- One directional scanning loop of `check_win` / `evaluate_position`:
starting at `(nx, ny)` and stepping by `(dx, dy)`, collect the visited cells
while they are in bounds and hold `player`, and return the visited cells
together with the coordinates at which the loop stopped.  The Python `while`
loop is unbounded; `fuel` bounds the recursion and is always instantiated
with `s.size`, which the lemmas below prove sufficient. -/
def walk (s : GameState) (player : Cell) (dx dy : Int) :
    Nat → Int → Int → List (Int × Int) × Int × Int
  | 0, nx, ny => ([], nx, ny)
  | fuel + 1, nx, ny =>
    if inb s nx ny && decide (s.board nx ny = player) then
      let r := walk s player dx dy fuel (nx + dx) (ny + dy)
      ((nx, ny) :: r.1, r.2)
    else ([], nx, ny)

/-- The four scanned axis directions of the source. -/
def dirList : List (Int × Int) := [(0, 1), (1, 0), (1, 1), (-1, 1)]

/-- The body of one iteration of the direction loop of `check_win`: scan both
signed directions from `(x, y)`, and if the total contiguous count reaches
`target`, return the winning sequence (centre cell, then the positive-direction
cells, then the negative-direction cells), else `none`. -/
def winInDir (s : GameState) (player : Cell) (x y dx dy : Int) :
    Option (List (Int × Int)) :=
  let p := walk s player dx dy s.size (x + dx) (y + dy)
  let n := walk s player (-dx) (-dy) s.size (x - dx) (y - dy)
  if (s.target : Int) ≤ 1 + p.1.length + n.1.length then
    some ((x, y) :: p.1 ++ n.1)
  else none

/-- `check_win(x, y)` with the winning sequence it would record: `none` when
no win is detected, `some seq` when the first winning direction yields the
sequence `seq`.  Blocked and empty cells never win (the initial guard of the
source). -/
def check_win_seq (s : GameState) (x y : Int) : Option (List (Int × Int)) :=
  if s.board x y = Cell.B ∨ s.board x y = Cell.empty then none
  else
    let player := s.board x y
    match winInDir s player x y 0 1 with
    | some q => some q
    | none =>
      match winInDir s player x y 1 0 with
      | some q => some q
      | none =>
        match winInDir s player x y 1 1 with
        | some q => some q
        | none => winInDir s player x y (-1) 1

/-- The boolean result of `check_win(x, y, update_winning_sequence=False)`. -/
def check_win_b (s : GameState) (x y : Int) : Bool :=
  (check_win_seq s x y).isSome

/-- Row-major list of the in-range grid coordinates. -/
def gridCoords (s : GameState) : List (Int × Int) :=
  (List.range s.size).foldr
    (fun xi acc => ((List.range s.size).map fun yi => ((xi : Int), (yi : Int))) ++ acc) []

/-- `any(self.board[x][y] == ' ' for ...)`. -/
def anyEmpty (s : GameState) : Bool :=
  (gridCoords s).any fun p => decide (s.board p.1 p.2 = Cell.empty)

/-- `is_terminal`: a win through the last move, or no empty cell left. -/
def is_terminal (s : GameState) : Bool :=
  match s.last_move with
  | some (x, y) => if check_win_b s x y then true else !anyEmpty s
  | none => !anyEmpty s

/-- One iteration of the direction loop of `evaluate_position`: count the
contiguous run of `player` through `(x, y)` along `(dx, dy)` and its open
(empty, in-bounds) ends, and award the score thresholds of the source. -/
def dirScore (s : GameState) (player : Cell) (x y dx dy : Int) : Int :=
  let p := walk s player dx dy s.size (x + dx) (y + dy)
  let openP : Int :=
    if inb s p.2.1 p.2.2 && decide (s.board p.2.1 p.2.2 = Cell.empty) then 1 else 0
  let n := walk s player (-dx) (-dy) s.size (x - dx) (y - dy)
  let openN : Int :=
    if inb s n.2.1 n.2.2 && decide (s.board n.2.1 n.2.2 = Cell.empty) then 1 else 0
  let count : Int := 1 + p.1.length + n.1.length
  let open_ends : Int := openP + openN
  if (s.target : Int) ≤ count then 1000
  else if count = (s.target : Int) - 1 ∧ 0 < open_ends then 100
  else if count = (s.target : Int) - 2 ∧ 1 < open_ends then 10
  else if count = (s.target : Int) - 3 ∧ 1 < open_ends then 5
  else 0

/-- `evaluate_position(x, y, player)`: the sum of `dirScore` over the four
axis directions. -/
def evaluate_position (s : GameState) (x y : Int) (player : Cell) : Int :=
  dirScore s player x y 0 1 + dirScore s player x y 1 0 +
    dirScore s player x y 1 1 + dirScore s player x y (-1) 1

/-- The inner double loop of `heuristic_evaluation`: `player_score`, the sum
of `evaluate_position` over the cells held by `player`. -/
def player_total (s : GameState) (player : Cell) : Int :=
  (List.range s.size).foldl
    (fun acc xi =>
      (List.range s.size).foldl
        (fun acc2 yi =>
          if s.board (Int.ofNat xi) (Int.ofNat yi) = player then
            acc2 + evaluate_position s (Int.ofNat xi) (Int.ofNat yi) player
          else acc2)
        acc)
    0

/-- `heuristic_evaluation`: the `for player in ['O', 'X']` loop, adding the
engine total (with a 50-per-spent-power-move penalty) and subtracting the
human total (crediting the human's spent power moves back). -/
def heuristic_evaluation (s : GameState) : Int :=
  [Cell.O, Cell.X].foldl
    (fun score player =>
      let player_score := player_total s player
      if player = Cell.O then
        score + player_score - (3 - s.ai_power_moves_remaining) * 50
      else
        score - player_score + (3 - s.user_power_moves_remaining) * 50)
    0

/-- `evaluate()`: win through the last move gives `±10000`, otherwise the
heuristic score. -/
def evaluate (s : GameState) : Int :=
  match s.last_move with
  | some (x, y) =>
    if s.board x y = Cell.O ∧ check_win_b s x y then 10000
    else if s.board x y = Cell.X ∧ check_win_b s x y then -10000
    else heuristic_evaluation s
  | none => heuristic_evaluation s

/-! ## Mutation primitives -/

/-- The `move_type` argument of `place_piece`; the source only ever passes
`'normal'` or `'block'`. -/
inductive MoveType where
  | normal
  | block
deriving DecidableEq

/-- `place_piece(x, y, switch_turn, move_type)`.  Returns the updated state
together with the `(move_successful, win_detected)` pair of the source
(for a block, the second flag signals the extra move owed). -/
def place_piece (s : GameState) (x y : Int) (switch_turn : Bool) (mt : MoveType) :
    GameState × Bool × Bool :=
  if s.game_over then (s, false, false)
  else
    match mt with
    | .normal =>
      if is_valid_move s x y then
        let s1 := { s with board := setCell s.board x y (Cell.ofPlayer s.turn),
                           last_move := some (x, y) }
        match check_win_seq s1 x y with
        | some seq =>
          ({ s1 with game_over := true, winning_sequence := seq,
                     turn_count := s1.turn_count + 1 }, true, true)
        | none =>
          let s2 := if switch_turn then { s1 with turn := s1.turn.other } else s1
          ({ s2 with turn_count := s2.turn_count + 1 }, true, false)
      else (s, false, false)
    | .block =>
      if is_valid_block s x y then
        let s1 := { s with board := setCell s.board x y Cell.B,
                           last_move := some (x, y) }
        let s2 :=
          match s.turn with
          | .X => { s1 with user_blocks_remaining := s1.user_blocks_remaining - 1 }
          | .O => { s1 with ai_blocks_remaining := s1.ai_blocks_remaining - 1 }
        (s2, true, true)
      else (s, false, false)

/-- `block_tile(x, y)` forwards to `place_piece` in block mode with the
default `switch_turn=True`. -/
def block_tile (s : GameState) (x y : Int) : GameState × Bool × Bool :=
  place_piece s x y true .block

/-- `remove_tile(x, y, switch_turn)`.  Returns the updated state together
with the success flag. -/
def remove_tile (s : GameState) (x y : Int) (switch_turn : Bool) :
    GameState × Bool :=
  if is_valid_remove s x y then
    let s1 := { s with board := setCell s.board x y Cell.empty }
    let s2 :=
      match s.turn with
      | .X => { s1 with user_power_moves_remaining := s1.user_power_moves_remaining - 1 }
      | .O => { s1 with ai_power_moves_remaining := s1.ai_power_moves_remaining - 1 }
    let s3 := { s2 with last_removed_tile := some (x, y) }
    let s4 := if switch_turn then { s3 with turn := s3.turn.other } else s3
    ({ s4 with turn_count := s4.turn_count + 1 }, true)
  else (s, false)

/-! ## Search values

The Python search mixes `float('-inf')`, `float('inf')` and exact integer
evaluation scores; `XInt` is that value domain. -/

/-- An integer extended with the two infinities used for alpha/beta. -/
inductive XInt where
  | negInf
  | fin (v : Int)
  | posInf
deriving DecidableEq

/-- The comparison `a <= b` on extended integers. -/
def XInt.leB : XInt → XInt → Bool
  | .negInf, _ => true
  | _, .posInf => true
  | .fin a, .fin b => decide (a ≤ b)
  | .posInf, .fin _ => false
  | .posInf, .negInf => false
  | .fin _, .negInf => false

/-- The strict comparison `a < b` on extended integers. -/
def XInt.ltB (a b : XInt) : Bool :=
  !XInt.leB b a

/-- Python `max(a, b)` (returns `a` when equal; the tie is value-irrelevant). -/
def XInt.max2 (a b : XInt) : XInt :=
  if XInt.leB b a then a else b

/-- Python `min(a, b)`. -/
def XInt.min2 (a b : XInt) : XInt :=
  if XInt.leB a b then a else b

/-! ## Move enumeration -/

/-- The move tag: `'place'`, `'block'` or `'remove'`. -/
inductive Action where
  | place
  | block
  | remove
deriving DecidableEq

/-- A move tuple `(action, x, y)`. -/
abbrev Move := Action × Int × Int

/-- Append a coordinate if it is not already present; models the `set`
semantics of the place-candidate collection (the Python iteration order over a
`set` is unspecified; this embedding fixes first-insertion order). -/
def pushNew (l : List (Int × Int)) (p : Int × Int) : List (Int × Int) :=
  if p ∈ l then l else l ++ [p]

/-- The place-candidate scan of `get_valid_moves`: every empty cell within
distance 1 of an existing non-empty, non-blocked piece, in row-major scan
order, deduplicated. -/
def place_candidates (s : GameState) : List (Int × Int) :=
  (List.range s.size).foldl
    (fun acc xi =>
      (List.range s.size).foldl
        (fun acc2 yi =>
          if s.board (xi : Int) (yi : Int) ≠ Cell.empty ∧
             s.board (xi : Int) (yi : Int) ≠ Cell.B then
            ([-1, 0, 1] : List Int).foldl
              (fun acc3 dx =>
                ([-1, 0, 1] : List Int).foldl
                  (fun acc4 dy =>
                    let nx := (xi : Int) + dx
                    let ny := (yi : Int) + dy
                    if inb s nx ny && decide (s.board nx ny = Cell.empty) then
                      pushNew acc4 (nx, ny)
                    else acc4)
                  acc3)
              acc2
          else acc2)
        acc)
    []

/-- The empty cells, in row-major order (the block-candidate scan). -/
def empty_cells (s : GameState) : List (Int × Int) :=
  (gridCoords s).filter fun p => decide (s.board p.1 p.2 = Cell.empty)

/-- The cells held by the opponent of `self.turn`, in row-major order (the
remove-candidate scan). -/
def opponent_cells (s : GameState) : List (Int × Int) :=
  (gridCoords s).filter fun p => decide (s.board p.1 p.2 = Cell.ofPlayer s.turn.other)

/-- `get_valid_moves(include_blocks, include_removes)`. -/
def get_valid_moves (s : GameState) (include_blocks include_removes : Bool) :
    List Move :=
  let pc := place_candidates s
  let pc := if pc = [] then [((s.size : Int) / 2, (s.size : Int) / 2)] else pc
  let ml := pc.map fun p => ((Action.place, p.1, p.2) : Move)
  let ml := ml ++
    (if include_blocks then
      (match s.turn with
       | .X =>
         if 0 < s.user_blocks_remaining then
           (empty_cells s).map fun p => ((Action.block, p.1, p.2) : Move)
         else []
       | .O =>
         if 0 < s.ai_blocks_remaining then
           (empty_cells s).map fun p => ((Action.block, p.1, p.2) : Move)
         else [])
     else [])
  ml ++
    (if include_removes then
      (match s.turn with
       | .X =>
         if 0 < s.user_power_moves_remaining then
           (opponent_cells s).map fun p => ((Action.remove, p.1, p.2) : Move)
         else []
       | .O =>
         if 0 < s.ai_power_moves_remaining then
           (opponent_cells s).map fun p => ((Action.remove, p.1, p.2) : Move)
         else [])
     else [])

/-! ## Trial mutations of the search loops

These transcribe the in-place apply and undo lines of `minimax` /
`ai_move_decision`.  Each undo also clears `last_move`, transcribing the
`self.last_move = None` line that the loop body runs right after every undo. -/

/-- Maximizing-branch trial apply of a place: engine piece, `last_move`,
`turn_count += 1`. -/
def apply_place_max (s : GameState) (x y : Int) : GameState :=
  { s with board := setCell s.board x y Cell.O, last_move := some (x, y),
           turn_count := s.turn_count + 1 }

/-- Maximizing-branch undo of a place (plus the `last_move = None` line). -/
def undo_place_max (s : GameState) (x y : Int) : GameState :=
  { s with board := setCell s.board x y Cell.empty,
           turn_count := s.turn_count - 1, last_move := none }

/-- Maximizing-branch trial apply of a block: `'B'`, `ai_blocks_remaining -= 1`. -/
def apply_block_max (s : GameState) (x y : Int) : GameState :=
  { s with board := setCell s.board x y Cell.B,
           ai_blocks_remaining := s.ai_blocks_remaining - 1 }

/-- Maximizing-branch undo of a block (plus the `last_move = None` line). -/
def undo_block_max (s : GameState) (x y : Int) : GameState :=
  { s with board := setCell s.board x y Cell.empty,
           ai_blocks_remaining := s.ai_blocks_remaining + 1, last_move := none }

/-- Maximizing-branch trial apply of a remove: clear the cell,
`ai_power_moves_remaining -= 1`, `turn_count += 1`. -/
def apply_remove_max (s : GameState) (x y : Int) : GameState :=
  { s with board := setCell s.board x y Cell.empty,
           ai_power_moves_remaining := s.ai_power_moves_remaining - 1,
           turn_count := s.turn_count + 1 }

/-- Maximizing-branch undo of a remove: restore the saved piece (plus the
`last_move = None` line). -/
def undo_remove_max (s : GameState) (x y : Int) (removed_piece : Cell) : GameState :=
  { s with board := setCell s.board x y removed_piece,
           ai_power_moves_remaining := s.ai_power_moves_remaining + 1,
           turn_count := s.turn_count - 1, last_move := none }

/-- Minimizing-branch trial apply of a place: human piece. -/
def apply_place_min (s : GameState) (x y : Int) : GameState :=
  { s with board := setCell s.board x y Cell.X, last_move := some (x, y),
           turn_count := s.turn_count + 1 }

/-- Minimizing-branch undo of a place (plus the `last_move = None` line). -/
def undo_place_min (s : GameState) (x y : Int) : GameState :=
  { s with board := setCell s.board x y Cell.empty,
           turn_count := s.turn_count - 1, last_move := none }

/-- Minimizing-branch trial apply of a block: `user_blocks_remaining -= 1`. -/
def apply_block_min (s : GameState) (x y : Int) : GameState :=
  { s with board := setCell s.board x y Cell.B,
           user_blocks_remaining := s.user_blocks_remaining - 1 }

/-- Minimizing-branch undo of a block (plus the `last_move = None` line). -/
def undo_block_min (s : GameState) (x y : Int) : GameState :=
  { s with board := setCell s.board x y Cell.empty,
           user_blocks_remaining := s.user_blocks_remaining + 1, last_move := none }

/-- Minimizing-branch trial apply of a remove. -/
def apply_remove_min (s : GameState) (x y : Int) : GameState :=
  { s with board := setCell s.board x y Cell.empty,
           user_power_moves_remaining := s.user_power_moves_remaining - 1,
           turn_count := s.turn_count + 1 }

/-- Minimizing-branch undo of a remove (plus the `last_move = None` line). -/
def undo_remove_min (s : GameState) (x y : Int) (removed_piece : Cell) : GameState :=
  { s with board := setCell s.board x y removed_piece,
           user_power_moves_remaining := s.user_power_moves_remaining + 1,
           turn_count := s.turn_count - 1, last_move := none }

/-- The filter `if self.last_removed_tile and (x, y) == self.last_removed_tile`
of the maximizing loop (a `None` last-removed tile is falsy, a coordinate
pair is truthy). -/
def lrt_skip (s : GameState) (x y : Int) : Bool :=
  match s.last_removed_tile with
  | some p => decide ((x, y) = p)
  | none => false

/-- The compound skip condition of the maximizing loop of `minimax` (and of
`ai_move_decision`): the last-removed-tile filter, the early-game remove
filter, and the two exhausted-counter `continue` checks inside the action
dispatch.  An iteration explores its move exactly when this is `false`. -/
def skip_max (s : GameState) (mv : Move) : Bool :=
  lrt_skip s mv.2.1 mv.2.2 ||
  (mv.1 == Action.remove && decide (s.turn_count < 10)) ||
  (mv.1 == Action.block && decide (s.ai_blocks_remaining ≤ 0)) ||
  (mv.1 == Action.remove && decide (s.ai_power_moves_remaining ≤ 0))

/-- The skip condition of the minimizing loop of `minimax`: only the two
exhausted-counter checks (the minimizing branch has no last-removed-tile and
no early-game filter). -/
def skip_min (s : GameState) (mv : Move) : Bool :=
  (mv.1 == Action.block && decide (s.user_blocks_remaining ≤ 0)) ||
  (mv.1 == Action.remove && decide (s.user_power_moves_remaining ≤ 0))

/-! ## The alpha-beta search

The loops thread the shared board through each iteration: an explored
iteration hands `undo_… (apply_… s …) …` to the rest of the loop, exactly as
the in-place code leaves the board after its paired undo (and after the
`self.last_move = None` line).  The recursive evaluation of the child
position is a parameter `child`, instantiated with `minimax` at `depth - 1`. -/

/-- The maximizing move loop of `minimax`: skip filters, trial apply,
child recursion with the maximizing flag `false`, paired undo, running
maximum, alpha raise, and beta-cutoff break. -/
def maxLoop (child : GameState → XInt → XInt → Bool → XInt) :
    GameState → List Move → XInt → XInt → XInt → XInt
  | _, [], _, _, best => best
  | s, (a, x, y) :: rest, alpha, beta, best =>
    if lrt_skip s x y then
      maxLoop child s rest alpha beta best
    else if a == Action.remove && decide (s.turn_count < 10) then
      maxLoop child s rest alpha beta best
    else
      match a with
      | .place =>
        let e := child (apply_place_max s x y) alpha beta false
        let s2 := undo_place_max (apply_place_max s x y) x y
        let best2 := XInt.max2 best e
        let alpha2 := XInt.max2 alpha e
        if XInt.leB beta alpha2 then best2
        else maxLoop child s2 rest alpha2 beta best2
      | .block =>
        if s.ai_blocks_remaining ≤ 0 then maxLoop child s rest alpha beta best
        else
          let e := child (apply_block_max s x y) alpha beta false
          let s2 := undo_block_max (apply_block_max s x y) x y
          let best2 := XInt.max2 best e
          let alpha2 := XInt.max2 alpha e
          if XInt.leB beta alpha2 then best2
          else maxLoop child s2 rest alpha2 beta best2
      | .remove =>
        if s.ai_power_moves_remaining ≤ 0 then maxLoop child s rest alpha beta best
        else
          let removed_piece := s.board x y
          let e := child (apply_remove_max s x y) alpha beta false
          let s2 := undo_remove_max (apply_remove_max s x y) x y removed_piece
          let best2 := XInt.max2 best e
          let alpha2 := XInt.max2 alpha e
          if XInt.leB beta alpha2 then best2
          else maxLoop child s2 rest alpha2 beta best2

/-- The minimizing move loop of `minimax`: no last-removed-tile filter and no
early-game remove filter (the source has none in this branch), child
recursion with the maximizing flag `true`, running minimum, beta lowering,
and cutoff break. -/
def minLoop (child : GameState → XInt → XInt → Bool → XInt) :
    GameState → List Move → XInt → XInt → XInt → XInt
  | _, [], _, _, best => best
  | s, (a, x, y) :: rest, alpha, beta, best =>
    match a with
    | .place =>
      let e := child (apply_place_min s x y) alpha beta true
      let s2 := undo_place_min (apply_place_min s x y) x y
      let best2 := XInt.min2 best e
      let beta2 := XInt.min2 beta e
      if XInt.leB beta2 alpha then best2
      else minLoop child s2 rest alpha beta2 best2
    | .block =>
      if s.user_blocks_remaining ≤ 0 then minLoop child s rest alpha beta best
      else
        let e := child (apply_block_min s x y) alpha beta true
        let s2 := undo_block_min (apply_block_min s x y) x y
        let best2 := XInt.min2 best e
        let beta2 := XInt.min2 beta e
        if XInt.leB beta2 alpha then best2
        else minLoop child s2 rest alpha beta2 best2
    | .remove =>
      if s.user_power_moves_remaining ≤ 0 then minLoop child s rest alpha beta best
      else
        let removed_piece := s.board x y
        let e := child (apply_remove_min s x y) alpha beta true
        let s2 := undo_remove_min (apply_remove_min s x y) x y removed_piece
        let best2 := XInt.min2 best e
        let beta2 := XInt.min2 beta e
        if XInt.leB beta2 alpha then best2
        else minLoop child s2 rest alpha beta2 best2

/-- `minimax(depth, alpha, beta, maximizing_player)`.  The recursive calls of
both branches pass the flipped flag (`False` in the maximizing branch, `True`
in the minimizing branch) for every action, including blocks. -/
def minimax : Nat → GameState → XInt → XInt → Bool → XInt
  | 0, s, _, _, _ => XInt.fin (evaluate s)
  | depth + 1, s, alpha, beta, maximizing_player =>
    if is_terminal s then XInt.fin (evaluate s)
    else if maximizing_player then
      maxLoop (fun s2 a2 b2 m2 => minimax depth s2 a2 b2 m2) s
        (get_valid_moves s true true) alpha beta XInt.negInf
    else
      minLoop (fun s2 a2 b2 m2 => minimax depth s2 a2 b2 m2) s
        (get_valid_moves s true true) alpha beta XInt.posInf

/-- The move-selection loop of `ai_move_decision`: the same filters, trial
mutations and undos as the maximizing branch of `minimax`, each child
searched with a full window and the minimizing role, keeping the first move
with a strictly greater score. -/
def ai_decision_loop (child : GameState → XInt → XInt → Bool → XInt) :
    GameState → List Move → XInt → Option Move → Option Move
  | _, [], _, best_move => best_move
  | s, (a, x, y) :: rest, best_score, best_move =>
    if lrt_skip s x y then
      ai_decision_loop child s rest best_score best_move
    else if a == Action.remove && decide (s.turn_count < 10) then
      ai_decision_loop child s rest best_score best_move
    else
      match a with
      | .place =>
        let score := child (apply_place_max s x y) XInt.negInf XInt.posInf false
        let s2 := undo_place_max (apply_place_max s x y) x y
        if XInt.ltB best_score score then
          ai_decision_loop child s2 rest score (some (a, x, y))
        else ai_decision_loop child s2 rest best_score best_move
      | .block =>
        if s.ai_blocks_remaining ≤ 0 then
          ai_decision_loop child s rest best_score best_move
        else
          let score := child (apply_block_max s x y) XInt.negInf XInt.posInf false
          let s2 := undo_block_max (apply_block_max s x y) x y
          if XInt.ltB best_score score then
            ai_decision_loop child s2 rest score (some (a, x, y))
          else ai_decision_loop child s2 rest best_score best_move
      | .remove =>
        if s.ai_power_moves_remaining ≤ 0 then
          ai_decision_loop child s rest best_score best_move
        else
          let removed_piece := s.board x y
          let score := child (apply_remove_max s x y) XInt.negInf XInt.posInf false
          let s2 := undo_remove_max (apply_remove_max s x y) x y removed_piece
          if XInt.ltB best_score score then
            ai_decision_loop child s2 rest score (some (a, x, y))
          else ai_decision_loop child s2 rest best_score best_move

/-- `ai_move_decision(depth)`: run the selection loop over the full candidate
list, each candidate scored by `minimax(depth - 1, -inf, inf, False)`.  The
callers only ever pass `depth ≥ 1`. -/
def ai_move_decision (s : GameState) (depth : Nat) : Option Move :=
  ai_decision_loop (fun s2 a2 b2 m2 => minimax (depth - 1) s2 a2 b2 m2) s
    (get_valid_moves s true true) XInt.negInf none

/-- A maximizing loop that follows the words of the specification instead of
the source: the recursive call for a block keeps the maximizing role (flag
`true`), every other action flips it.  Written only to be compared with
`maxLoop`. -/
def maxLoopSpecBK (child : GameState → XInt → XInt → Bool → XInt) :
    GameState → List Move → XInt → XInt → XInt → XInt
  | _, [], _, _, best => best
  | s, (a, x, y) :: rest, alpha, beta, best =>
    if lrt_skip s x y then
      maxLoopSpecBK child s rest alpha beta best
    else if a == Action.remove && decide (s.turn_count < 10) then
      maxLoopSpecBK child s rest alpha beta best
    else
      match a with
      | .place =>
        let e := child (apply_place_max s x y) alpha beta false
        let s2 := undo_place_max (apply_place_max s x y) x y
        let best2 := XInt.max2 best e
        let alpha2 := XInt.max2 alpha e
        if XInt.leB beta alpha2 then best2
        else maxLoopSpecBK child s2 rest alpha2 beta best2
      | .block =>
        if s.ai_blocks_remaining ≤ 0 then maxLoopSpecBK child s rest alpha beta best
        else
          let e := child (apply_block_max s x y) alpha beta true
          let s2 := undo_block_max (apply_block_max s x y) x y
          let best2 := XInt.max2 best e
          let alpha2 := XInt.max2 alpha e
          if XInt.leB beta alpha2 then best2
          else maxLoopSpecBK child s2 rest alpha2 beta best2
      | .remove =>
        if s.ai_power_moves_remaining ≤ 0 then maxLoopSpecBK child s rest alpha beta best
        else
          let removed_piece := s.board x y
          let e := child (apply_remove_max s x y) alpha beta false
          let s2 := undo_remove_max (apply_remove_max s x y) x y removed_piece
          let best2 := XInt.max2 best e
          let alpha2 := XInt.max2 alpha e
          if XInt.leB beta alpha2 then best2
          else maxLoopSpecBK child s2 rest alpha2 beta best2

/-- The minimizing counterpart of `maxLoopSpecBK`: a block keeps the
minimizing role (flag `false`). -/
def minLoopSpecBK (child : GameState → XInt → XInt → Bool → XInt) :
    GameState → List Move → XInt → XInt → XInt → XInt
  | _, [], _, _, best => best
  | s, (a, x, y) :: rest, alpha, beta, best =>
    match a with
    | .place =>
      let e := child (apply_place_min s x y) alpha beta true
      let s2 := undo_place_min (apply_place_min s x y) x y
      let best2 := XInt.min2 best e
      let beta2 := XInt.min2 beta e
      if XInt.leB beta2 alpha then best2
      else minLoopSpecBK child s2 rest alpha beta2 best2
    | .block =>
      if s.user_blocks_remaining ≤ 0 then minLoopSpecBK child s rest alpha beta best
      else
        let e := child (apply_block_min s x y) alpha beta false
        let s2 := undo_block_min (apply_block_min s x y) x y
        let best2 := XInt.min2 best e
        let beta2 := XInt.min2 beta e
        if XInt.leB beta2 alpha then best2
        else minLoopSpecBK child s2 rest alpha beta2 best2
    | .remove =>
      if s.user_power_moves_remaining ≤ 0 then minLoopSpecBK child s rest alpha beta best
      else
        let removed_piece := s.board x y
        let e := child (apply_remove_min s x y) alpha beta true
        let s2 := undo_remove_min (apply_remove_min s x y) x y removed_piece
        let best2 := XInt.min2 best e
        let beta2 := XInt.min2 beta e
        if XInt.leB beta2 alpha then best2
        else minLoopSpecBK child s2 rest alpha beta2 best2

/-- The search described by the specification sentence for claim comparison:
identical to `minimax` except that a tried block does not flip the
maximizing flag of the recursive call. -/
def minimaxSpecBK : Nat → GameState → XInt → XInt → Bool → XInt
  | 0, s, _, _, _ => XInt.fin (evaluate s)
  | depth + 1, s, alpha, beta, maximizing_player =>
    if is_terminal s then XInt.fin (evaluate s)
    else if maximizing_player then
      maxLoopSpecBK (fun s2 a2 b2 m2 => minimaxSpecBK depth s2 a2 b2 m2) s
        (get_valid_moves s true true) alpha beta XInt.negInf
    else
      minLoopSpecBK (fun s2 a2 b2 m2 => minimaxSpecBK depth s2 a2 b2 m2) s
        (get_valid_moves s true true) alpha beta XInt.posInf

/-! ## Concrete states for witnesses and counterexamples -/

/-- The `__init__` state of a fresh `GameBoard(size, target)`. -/
def initGameBoard (size target : Nat) : GameState :=
  { size := size, target := target, board := fun _ _ => Cell.empty,
    turn := Player.X, last_move := none, game_over := false,
    user_blocks_remaining := 1, ai_blocks_remaining := 1,
    user_power_moves_remaining := 3, ai_power_moves_remaining := 3,
    winning_sequence := [], last_removed_tile := none, turn_count := 0 }

/-- A grid given by a row list, `Cell.empty` outside. -/
def boardOfRows (rows : List (List Cell)) : Int → Int → Cell :=
  fun x y =>
    if 0 ≤ x ∧ 0 ≤ y then (rows.getD x.toNat []).getD y.toNat Cell.empty
    else Cell.empty

open Cell in
/-- A 3x3 board whose only unskipped search candidate would be the remove of
the lone human piece, itself filtered out by `turn_count < 10`; the single
place candidate coincides with `last_removed_tile`. -/
def exampleAllSkipped : GameState :=
  { initGameBoard 3 3 with
    board := boardOfRows [[X, empty, empty], [B, B, empty], [empty, empty, empty]],
    turn := Player.O, ai_blocks_remaining := 0,
    last_removed_tile := some (0, 1), turn_count := 0 }

open Cell in
/-- A 3x3 board on which the only explored candidate of the maximizing loop
is the block of the far corner `(2, 2)`. -/
def exampleSingleBlock : GameState :=
  { initGameBoard 3 3 with
    board := boardOfRows [[X, empty, B], [B, B, B], [B, B, empty]],
    turn := Player.O, ai_blocks_remaining := 1, ai_power_moves_remaining := 0,
    last_removed_tile := some (0, 1), turn_count := 12 }

open Cell in
/-- A mid-opening 3x3 board: the human to move at `turn_count = 5` with an
engine piece available to remove. -/
def exampleEarlyRemove : GameState :=
  { initGameBoard 3 3 with
    board := boardOfRows [[empty, empty, empty], [empty, O, empty], [empty, empty, empty]],
    turn := Player.X, turn_count := 5 }

open Cell in
/-- A 5x5 board with a winning engine row placed last at `(0, 4)`. -/
def exampleRowWin : GameState :=
  { initGameBoard 5 5 with
    board := boardOfRows [[O, O, O, O, O]], last_move := some (0, 4) }

/-- A fresh board whose `last_move` is set, to observe that the search undo
clears rather than restores it. -/
def exampleLastMoveSet : GameState :=
  { initGameBoard 3 3 with last_move := some (0, 0) }

open Cell in
/-- A finished game (`game_over = True`) with an engine piece the human could
still remove. -/
def exampleGameOverRemove : GameState :=
  { initGameBoard 3 3 with
    board := boardOfRows [[empty, empty, empty], [empty, O, empty], [empty, empty, empty]],
    turn := Player.X, game_over := true, turn_count := 7 }

/-! ## Specification-side predicates -/

/-- The cell `(x, y)` lies on a contiguous run of `target` cells along the
axis `(dx, dy)`, every cell of the run in bounds and holding the same piece
as `(x, y)`: the run covers offsets `-i, …, target - 1 - i` for some
`i < target`. -/
def HasRun (s : GameState) (x y dx dy : Int) : Prop :=
  ∃ i : Nat, i < s.target ∧ ∀ t : Nat, t < s.target →
    inb s (x + ((t : Int) - (i : Int)) * dx) (y + ((t : Int) - (i : Int)) * dy) = true ∧
    s.board (x + ((t : Int) - (i : Int)) * dx) (y + ((t : Int) - (i : Int)) * dy) =
      s.board x y

/-- The sum of `evaluate_position` over every cell held by `player`, written
as a double finite sum. -/
def sum_position (s : GameState) (player : Cell) : Int :=
  ∑ xi ∈ Finset.range s.size, ∑ yi ∈ Finset.range s.size,
    if s.board (xi : Int) (yi : Int) = player then
      evaluate_position s (xi : Int) (yi : Int) player
    else 0

/-- One step of the public mutation operations never increases a resource
counter: either all four counters are unchanged, or exactly one of them
drops by one. -/
def counter_step_ok (s t : GameState) : Prop :=
  (t.user_blocks_remaining = s.user_blocks_remaining ∧
   t.ai_blocks_remaining = s.ai_blocks_remaining ∧
   t.user_power_moves_remaining = s.user_power_moves_remaining ∧
   t.ai_power_moves_remaining = s.ai_power_moves_remaining) ∨
  (t.user_blocks_remaining = s.user_blocks_remaining - 1 ∧
   t.ai_blocks_remaining = s.ai_blocks_remaining ∧
   t.user_power_moves_remaining = s.user_power_moves_remaining ∧
   t.ai_power_moves_remaining = s.ai_power_moves_remaining) ∨
  (t.user_blocks_remaining = s.user_blocks_remaining ∧
   t.ai_blocks_remaining = s.ai_blocks_remaining - 1 ∧
   t.user_power_moves_remaining = s.user_power_moves_remaining ∧
   t.ai_power_moves_remaining = s.ai_power_moves_remaining) ∨
  (t.user_blocks_remaining = s.user_blocks_remaining ∧
   t.ai_blocks_remaining = s.ai_blocks_remaining ∧
   t.user_power_moves_remaining = s.user_power_moves_remaining - 1 ∧
   t.ai_power_moves_remaining = s.ai_power_moves_remaining) ∨
  (t.user_blocks_remaining = s.user_blocks_remaining ∧
   t.ai_blocks_remaining = s.ai_blocks_remaining ∧
   t.user_power_moves_remaining = s.user_power_moves_remaining ∧
   t.ai_power_moves_remaining = s.ai_power_moves_remaining - 1)

/-! # Theorems -/

/-! ## Basic helper lemmas -/

lemma inb_iff (s : GameState) (x y : Int) :
    inb s x y = true ↔ 0 ≤ x ∧ x < (s.size : Int) ∧ 0 ≤ y ∧ y < (s.size : Int) := by
  simp [inb, and_assoc]

lemma setCell_cancel {b : Int → Int → Cell} {x y : Int} {c d : Cell}
    (h : b x y = d) : setCell (setCell b x y c) x y d = b := by
  funext a e
  simp only [setCell]
  split_ifs with hc
  · rw [← h, hc.1, hc.2]
  · rfl

lemma setCell_get (b : Int → Int → Cell) (x y : Int) (c : Cell) :
    setCell b x y c x y = c := by
  simp [setCell]

/-! ## C5: invalid mutations are total no-ops -/

/-- C5: whenever the matching validity predicate is false — including for
out-of-bounds or negative coordinates — `place_piece` (normal and block
mode), `block_tile` and `remove_tile` leave the whole state unchanged and
report failure through their returned applied flag.  The operations are
total Lean functions, which models the no-exception contract of the source:
the Python bodies guard every board access behind the same bounds checks. -/
theorem invalid_mutations_are_noops (s : GameState) (x y : Int) (st : Bool) :
    (is_valid_move s x y = false →
      place_piece s x y st MoveType.normal = (s, false, false)) ∧
    (is_valid_block s x y = false →
      place_piece s x y st MoveType.block = (s, false, false)) ∧
    (is_valid_block s x y = false → block_tile s x y = (s, false, false)) ∧
    (is_valid_remove s x y = false → remove_tile s x y st = (s, false)) := by
  refine ⟨?_, ?_, ?_, ?_⟩ <;> intro h
  · by_cases hg : s.game_over <;> simp [place_piece, hg, h]
  · by_cases hg : s.game_over <;> simp [place_piece, hg, h]
  · by_cases hg : s.game_over <;> simp [block_tile, place_piece, hg, h]
  · simp [remove_tile, h]

/-- Witness for C5 at the out-of-bounds coordinate `(-1, 0)` of a fresh
board. -/
theorem invalid_mutations_are_noops_witness :
    is_valid_move (initGameBoard 10 5) (-1) 0 = false ∧
    place_piece (initGameBoard 10 5) (-1) 0 true MoveType.normal =
      (initGameBoard 10 5, false, false) ∧
    remove_tile (initGameBoard 10 5) (-1) 0 true = (initGameBoard 10 5, false) :=
  ⟨by decide,
   (invalid_mutations_are_noops (initGameBoard 10 5) (-1) 0 true).1 (by decide),
   (invalid_mutations_are_noops (initGameBoard 10 5) (-1) 0 true).2.2.2 (by decide)⟩

/-! ## C8: counters never increase -/

/-- C8: every application of the public mutation operations — successful or
failed, normal place, block mode, `block_tile`, `remove_tile` — leaves the
four resource counters unchanged or decrements exactly one of them by 1;
no counter ever increases. -/
theorem counters_never_increase (s : GameState) (x y : Int) (st : Bool) :
    counter_step_ok s (place_piece s x y st MoveType.normal).1 ∧
    counter_step_ok s (place_piece s x y st MoveType.block).1 ∧
    counter_step_ok s (block_tile s x y).1 ∧
    counter_step_ok s (remove_tile s x y st).1 := by
  have hplace : counter_step_ok s (place_piece s x y st MoveType.normal).1 := by
    by_cases hg : s.game_over
    · simp [place_piece, hg, counter_step_ok]
    · by_cases hv : is_valid_move s x y
      · simp only [place_piece, hg, if_false, hv, if_true, Bool.false_eq_true]
        split
        · simp [counter_step_ok]
        · by_cases hst : st <;> simp [hst, counter_step_ok]
      · simp [place_piece, hg, hv, counter_step_ok]
  have hblockAll : ∀ st2 : Bool,
      counter_step_ok s (place_piece s x y st2 MoveType.block).1 := by
    intro st2
    by_cases hg : s.game_over
    · simp [place_piece, hg, counter_step_ok]
    · by_cases hv : is_valid_block s x y
      · rcases ht : s.turn <;> simp [place_piece, hg, hv, ht, counter_step_ok]
      · simp [place_piece, hg, hv, counter_step_ok]
  have hremove : counter_step_ok s (remove_tile s x y st).1 := by
    by_cases hv : is_valid_remove s x y
    · rcases ht : s.turn <;> by_cases hst : st <;>
        simp [remove_tile, hv, ht, hst, counter_step_ok]
    · simp [remove_tile, hv, counter_step_ok]
  exact ⟨hplace, hblockAll st, by simpa [block_tile] using hblockAll true, hremove⟩

/-! ## C9: game_over gates place but not remove -/

/-- C9: once `game_over` is set, `place_piece` rejects every input (both
move types, any coordinates) without touching the state, while `remove_tile`
performs no `game_over` check at all: on a valid target it still clears the
cell, decrements the acting player's power counter, records
`last_removed_tile`, increments `turn_count`, and returns `True`. -/
theorem game_over_asymmetry (s : GameState) (hg : s.game_over = true) :
    (∀ x y : Int, ∀ st : Bool, ∀ mt : MoveType,
        place_piece s x y st mt = (s, false, false)) ∧
    (∀ x y : Int, ∀ st : Bool, is_valid_remove s x y = true →
        (remove_tile s x y st).2 = true ∧
        (remove_tile s x y st).1.board x y = Cell.empty ∧
        (remove_tile s x y st).1.last_removed_tile = some (x, y) ∧
        (remove_tile s x y st).1.turn_count = s.turn_count + 1 ∧
        (s.turn = Player.X →
          (remove_tile s x y st).1.user_power_moves_remaining =
            s.user_power_moves_remaining - 1) ∧
        (s.turn = Player.O →
          (remove_tile s x y st).1.ai_power_moves_remaining =
            s.ai_power_moves_remaining - 1)) := by
  constructor
  · intro x y st mt
    simp [place_piece, hg]
  · intro x y st hv
    rcases ht : s.turn <;> by_cases hst : st <;>
      simp [remove_tile, hv, ht, hst, setCell_get]

/-- Witness for C9: a finished game where the human can still remove the
engine piece at `(1, 1)`. -/
theorem game_over_asymmetry_witness :
    place_piece exampleGameOverRemove 0 0 true MoveType.normal =
      (exampleGameOverRemove, false, false) ∧
    (remove_tile exampleGameOverRemove 1 1 true).2 = true ∧
    (remove_tile exampleGameOverRemove 1 1 true).1.turn_count =
      exampleGameOverRemove.turn_count + 1 :=
  ⟨(game_over_asymmetry exampleGameOverRemove rfl).1 0 0 true MoveType.normal,
   ((game_over_asymmetry exampleGameOverRemove rfl).2 1 1 true (by decide)).1,
   ((game_over_asymmetry exampleGameOverRemove rfl).2 1 1 true (by decide)).2.2.2.1⟩

/-! ## C10: turn_count increments and block's last_move -/

/-- C10: a successful normal place and a successful remove each increment
`turn_count` by exactly 1; a successful block (through `place_piece` in
block mode, hence also through `block_tile`) leaves `turn_count` unchanged
and overwrites `last_move` with the blocked coordinate. -/
theorem turn_count_steps (s : GameState) (x y : Int) (st : Bool) :
    (s.game_over = false → is_valid_move s x y = true →
      (place_piece s x y st MoveType.normal).2.1 = true ∧
      (place_piece s x y st MoveType.normal).1.turn_count = s.turn_count + 1) ∧
    (is_valid_remove s x y = true →
      (remove_tile s x y st).2 = true ∧
      (remove_tile s x y st).1.turn_count = s.turn_count + 1) ∧
    (s.game_over = false → is_valid_block s x y = true →
      (place_piece s x y st MoveType.block).2.1 = true ∧
      (place_piece s x y st MoveType.block).1.turn_count = s.turn_count ∧
      (place_piece s x y st MoveType.block).1.last_move = some (x, y)) ∧
    (s.game_over = false → is_valid_block s x y = true →
      (block_tile s x y).1.turn_count = s.turn_count ∧
      (block_tile s x y).1.last_move = some (x, y)) := by
  refine ⟨?_, ?_, ?_, ?_⟩
  · intro hg hv
    simp only [place_piece, hg, Bool.false_eq_true, if_false, hv, if_true]
    split
    · simp
    · by_cases hst : st <;> simp [hst]
  · intro hv
    rcases ht : s.turn <;> by_cases hst : st <;> simp [remove_tile, hv, ht, hst]
  · intro hg hv
    rcases ht : s.turn <;> simp [place_piece, hg, hv, ht]
  · intro hg hv
    rcases ht : s.turn <;> simp [block_tile, place_piece, hg, hv, ht]

/-- Witness for C10 on concrete boards: a place on a fresh board and a
remove of the engine piece at `(1, 1)`. -/
theorem turn_count_steps_witness :
    (place_piece (initGameBoard 3 3) 1 1 true MoveType.normal).1.turn_count =
      (initGameBoard 3 3).turn_count + 1 ∧
    (remove_tile exampleEarlyRemove 1 1 true).1.turn_count =
      exampleEarlyRemove.turn_count + 1 ∧
    (place_piece (initGameBoard 3 3) 1 1 true MoveType.block).1.turn_count =
      (initGameBoard 3 3).turn_count ∧
    (place_piece (initGameBoard 3 3) 1 1 true MoveType.block).1.last_move =
      some (1, 1) :=
  ⟨((turn_count_steps (initGameBoard 3 3) 1 1 true).1 rfl (by decide)).2,
   ((turn_count_steps exampleEarlyRemove 1 1 true).2.1 (by decide)).2,
   ((turn_count_steps (initGameBoard 3 3) 1 1 true).2.2.1 rfl (by decide)).2.1,
   ((turn_count_steps (initGameBoard 3 3) 1 1 true).2.2.1 rfl (by decide)).2.2⟩

/-! ## C1: apply-then-undo inside the search

Each trial apply composed with its paired undo (which includes the
`self.last_move = None` line run after every undo) restores every state
component except `last_move`, which ends up cleared instead of restored. -/

lemma place_max_restore (s : GameState) (x y : Int) (h : s.board x y = Cell.empty) :
    undo_place_max (apply_place_max s x y) x y = { s with last_move := none } := by
  unfold apply_place_max undo_place_max
  ext : 1 <;> simp [setCell_cancel h]

lemma block_max_restore (s : GameState) (x y : Int) (h : s.board x y = Cell.empty) :
    undo_block_max (apply_block_max s x y) x y = { s with last_move := none } := by
  unfold apply_block_max undo_block_max
  ext : 1 <;> simp [setCell_cancel h]

lemma remove_max_restore (s : GameState) (x y : Int) :
    undo_remove_max (apply_remove_max s x y) x y (s.board x y) =
      { s with last_move := none } := by
  unfold apply_remove_max undo_remove_max
  ext : 1 <;> simp [setCell_cancel rfl]

lemma place_min_restore (s : GameState) (x y : Int) (h : s.board x y = Cell.empty) :
    undo_place_min (apply_place_min s x y) x y = { s with last_move := none } := by
  unfold apply_place_min undo_place_min
  ext : 1 <;> simp [setCell_cancel h]

lemma block_min_restore (s : GameState) (x y : Int) (h : s.board x y = Cell.empty) :
    undo_block_min (apply_block_min s x y) x y = { s with last_move := none } := by
  unfold apply_block_min undo_block_min
  ext : 1 <;> simp [setCell_cancel h]

lemma remove_min_restore (s : GameState) (x y : Int) :
    undo_remove_min (apply_remove_min s x y) x y (s.board x y) =
      { s with last_move := none } := by
  unfold apply_remove_min undo_remove_min
  ext : 1 <;> simp [setCell_cancel rfl]

/-- C1 (amended): inside the search loops, a trial apply followed by its
paired undo restores the grid, both players' block and power counters,
`turn_count`, `last_removed_tile`, and every other component — except
`last_move`, which is cleared to `None` instead of restored (the loop body
runs `self.last_move = None` after every undo, and the undo lines themselves
never save the previous `last_move`).  A remove trial restores the saved
`removed_piece` unconditionally, whatever piece the cell held; the
place/block cases assume the tried cell is empty, which holds for every
enumerated place/block candidate. -/
theorem search_apply_undo_clears_last_move (s : GameState) (x y : Int) :
    undo_remove_max (apply_remove_max s x y) x y (s.board x y) =
      { s with last_move := none } ∧
    undo_remove_min (apply_remove_min s x y) x y (s.board x y) =
      { s with last_move := none } ∧
    (s.board x y = Cell.empty →
      undo_place_max (apply_place_max s x y) x y = { s with last_move := none } ∧
      undo_block_max (apply_block_max s x y) x y = { s with last_move := none } ∧
      undo_place_min (apply_place_min s x y) x y = { s with last_move := none } ∧
      undo_block_min (apply_block_min s x y) x y = { s with last_move := none }) :=
  ⟨remove_max_restore s x y, remove_min_restore s x y,
   fun h => ⟨place_max_restore s x y h, block_max_restore s x y h,
     place_min_restore s x y h, block_min_restore s x y h⟩⟩

/-- Counterexample to C1 as stated: on a board whose `last_move` is
`(0, 0)`, the search's apply-then-undo of a trial place at the empty cell
`(1, 1)` does not restore `last_move` — it leaves `None`. -/
theorem search_apply_undo_changes_last_move_cex :
    exampleLastMoveSet.board 1 1 = Cell.empty ∧
    (undo_place_max (apply_place_max exampleLastMoveSet 1 1) 1 1).last_move ≠
      exampleLastMoveSet.last_move :=
  ⟨rfl, by decide⟩

/-- Witness for C1 (amended): a remove trial of the engine piece `'O'` at
the occupied cell `(1, 1)` of `exampleEarlyRemove` restores it, and a place
trial at the empty cell `(0, 0)` of the same board restores that cell. -/
theorem search_apply_undo_clears_last_move_witness :
    exampleEarlyRemove.board 1 1 = Cell.O ∧
    undo_remove_max (apply_remove_max exampleEarlyRemove 1 1) 1 1
        (exampleEarlyRemove.board 1 1) =
      { exampleEarlyRemove with last_move := none } ∧
    exampleEarlyRemove.board 0 0 = Cell.empty ∧
    undo_place_max (apply_place_max exampleEarlyRemove 0 0) 0 0 =
      { exampleEarlyRemove with last_move := none } :=
  ⟨by decide, (search_apply_undo_clears_last_move exampleEarlyRemove 1 1).1,
   by decide,
   ((search_apply_undo_clears_last_move exampleEarlyRemove 0 0).2.2 (by decide)).1⟩

/-! ## Loop lemmas for the maximizing search -/

/-- A prefix of candidates that are all skipped contributes nothing to the
maximizing loop. -/
lemma maxLoop_append_skipped (child : GameState → XInt → XInt → Bool → XInt)
    (s : GameState) (l r : List Move) (alpha beta best : XInt) :
    (∀ mv ∈ l, skip_max s mv = true) →
    maxLoop child s (l ++ r) alpha beta best = maxLoop child s r alpha beta best := by
  induction l generalizing alpha beta best with
  | nil => intro _; simp
  | cons mv l ih =>
    intro hall
    obtain ⟨a, x, y⟩ := mv
    have hskip : skip_max s (a, x, y) = true := hall _ (by simp)
    have hrest : ∀ mv ∈ l, skip_max s mv = true := fun mv hm => hall mv (by simp [hm])
    rw [List.cons_append]
    simp only [skip_max, Bool.or_eq_true, Bool.and_eq_true, beq_iff_eq,
      decide_eq_true_eq, or_assoc] at hskip
    cases a with
    | place =>
      rw [maxLoop]
      have h1 : lrt_skip s x y = true := by
        rcases hskip with h | h | h | h
        · exact h
        · exact absurd h.1 (by simp)
        · exact absurd h.1 (by simp)
        · exact absurd h.1 (by simp)
      rw [if_pos h1]
      exact ih _ _ _ hrest
    | block =>
      rw [maxLoop]
      by_cases h1 : lrt_skip s x y = true
      · rw [if_pos h1]
        exact ih _ _ _ hrest
      · rw [if_neg h1]
        by_cases h2 : (Action.block == Action.remove && decide (s.turn_count < 10)) = true
        · rw [if_pos h2]
          exact ih _ _ _ hrest
        · rw [if_neg h2]
          have hb : s.ai_blocks_remaining ≤ 0 := by
            rcases hskip with h | h | h | h
            · exact absurd h h1
            · exact absurd h.1 (by simp)
            · exact h.2
            · exact absurd h.1 (by simp)
          rw [if_pos hb]
          exact ih _ _ _ hrest
    | remove =>
      rw [maxLoop]
      by_cases h1 : lrt_skip s x y = true
      · rw [if_pos h1]
        exact ih _ _ _ hrest
      · rw [if_neg h1]
        by_cases h2 : (Action.remove == Action.remove && decide (s.turn_count < 10)) = true
        · rw [if_pos h2]
          exact ih _ _ _ hrest
        · rw [if_neg h2]
          have hp : s.ai_power_moves_remaining ≤ 0 := by
            rcases hskip with h | h | h | h
            · exact absurd h h1
            · exact absurd (by simp [h.2] :
                (Action.remove == Action.remove && decide (s.turn_count < 10)) = true) h2
            · exact absurd h.1 (by simp)
            · exact h.2
          rw [if_pos hp]
          exact ih _ _ _ hrest

/-- If every candidate is skipped, the maximizing loop returns its initial
best value unchanged. -/
lemma maxLoop_all_skipped (child : GameState → XInt → XInt → Bool → XInt)
    (s : GameState) (l : List Move) (alpha beta best : XInt)
    (hall : ∀ mv ∈ l, skip_max s mv = true) :
    maxLoop child s l alpha beta best = best := by
  simpa using maxLoop_append_skipped child s l [] alpha beta best hall

/-! ## C4: search with no explored move -/

/-- C4 (amended): at depth at least 1 on a non-terminal board, if every
enumerated candidate is skipped (last-removed-tile filter, early-remove
filter, or an exhausted-counter check — which can only happen for the
maximizing side, since the minimizing loop has no filters and always keeps
its place candidates), `minimax` returns `float('-inf')`, the untouched
loop initializer — not 0. -/
theorem minimax_no_explored_move_negInf (s : GameState) (d : Nat)
    (alpha beta : XInt) (hterm : is_terminal s = false)
    (hall : ∀ mv ∈ get_valid_moves s true true, skip_max s mv = true) :
    minimax (d + 1) s alpha beta true = XInt.negInf := by
  rw [minimax]
  simp only [hterm, Bool.false_eq_true, if_false, if_true]
  exact maxLoop_all_skipped _ s _ alpha beta XInt.negInf hall

/-- Counterexample to C4 as stated: a concrete non-terminal board on which
the maximizing loop skips every candidate and `minimax` returns `-inf`,
not 0. -/
theorem minimax_no_explored_move_cex :
    is_terminal exampleAllSkipped = false ∧
    (∀ mv ∈ get_valid_moves exampleAllSkipped true true,
      skip_max exampleAllSkipped mv = true) ∧
    minimax 1 exampleAllSkipped XInt.negInf XInt.posInf true ≠ XInt.fin 0 :=
  ⟨by decide, by decide, by decide⟩

/-- Witness for C4 (amended) on the same board. -/
theorem minimax_no_explored_move_negInf_witness :
    minimax 1 exampleAllSkipped XInt.negInf XInt.posInf true = XInt.negInf :=
  minimax_no_explored_move_negInf exampleAllSkipped 0 XInt.negInf XInt.posInf
    (by decide) (by decide)

/-- The candidate list always contains a place move: the enumeration falls
back to the centre cell when no frontier cell exists. -/
lemma gvm_has_place (s : GameState) (ib ir : Bool) :
    ∃ x y : Int, (Action.place, x, y) ∈ get_valid_moves s ib ir := by
  unfold get_valid_moves
  rcases hpc : place_candidates s with _ | ⟨q, qs⟩
  · exact ⟨(s.size : Int) / 2, (s.size : Int) / 2, by simp⟩
  · refine ⟨q.1, q.2, ?_⟩
    simp only [List.mem_append]
    left
    left
    simp

/-- The minimizing loop never skips a place candidate: its only `continue`
checks concern blocks and removes. -/
lemma skip_min_place (s : GameState) (x y : Int) :
    skip_min s (Action.place, x, y) = false := rfl

/-! ## C3: the early-game remove filter lives in the search loops -/

/-- The selection loop of `ai_move_decision` never produces a remove move
while `turn_count < 10`: every remove candidate is stopped by the
early-game filter, and the threaded undo keeps `turn_count` unchanged. -/
lemma ai_decision_loop_no_remove (child : GameState → XInt → XInt → Bool → XInt) :
    ∀ (l : List Move) (s : GameState) (bs : XInt) (bm : Option Move),
      s.turn_count < 10 → (∀ x y : Int, bm ≠ some (Action.remove, x, y)) →
      ∀ x y : Int, ai_decision_loop child s l bs bm ≠ some (Action.remove, x, y) := by
  intro l
  induction l with
  | nil =>
    intro s bs bm htc hbm x y
    simpa [ai_decision_loop] using hbm x y
  | cons mv l ih =>
    obtain ⟨a, x0, y0⟩ := mv
    intro s bs bm htc hbm x y
    cases a with
    | place =>
      rw [ai_decision_loop]
      by_cases h1 : lrt_skip s x0 y0 = true
      · rw [if_pos h1]
        exact ih s bs bm htc hbm x y
      · rw [if_neg h1]
        by_cases h2 : (Action.place == Action.remove && decide (s.turn_count < 10)) = true
        · rw [if_pos h2]
          exact ih s bs bm htc hbm x y
        · rw [if_neg h2]
          have htc2 : (undo_place_max (apply_place_max s x0 y0) x0 y0).turn_count < 10 := by
            simp only [undo_place_max, apply_place_max]
            omega
          dsimp only
          split
          · exact ih _ _ _ htc2 (fun x1 y1 => by simp) x y
          · exact ih _ _ _ htc2 hbm x y
    | block =>
      rw [ai_decision_loop]
      by_cases h1 : lrt_skip s x0 y0 = true
      · rw [if_pos h1]
        exact ih s bs bm htc hbm x y
      · rw [if_neg h1]
        by_cases h2 : (Action.block == Action.remove && decide (s.turn_count < 10)) = true
        · rw [if_pos h2]
          exact ih s bs bm htc hbm x y
        · rw [if_neg h2]
          by_cases hb : s.ai_blocks_remaining ≤ 0
          · rw [if_pos hb]
            exact ih s bs bm htc hbm x y
          · rw [if_neg hb]
            have htc2 : (undo_block_max (apply_block_max s x0 y0) x0 y0).turn_count < 10 := by
              simp only [undo_block_max, apply_block_max]
              omega
            dsimp only
            split
            · exact ih _ _ _ htc2 (fun x1 y1 => by simp) x y
            · exact ih _ _ _ htc2 hbm x y
    | remove =>
      rw [ai_decision_loop]
      by_cases h1 : lrt_skip s x0 y0 = true
      · rw [if_pos h1]
        exact ih s bs bm htc hbm x y
      · rw [if_neg h1]
        have h2 : (Action.remove == Action.remove && decide (s.turn_count < 10)) = true := by
          simp [htc]
        rw [if_pos h2]
        exact ih s bs bm htc hbm x y

/-- C3 (amended): `get_valid_moves` itself includes remove candidates
whenever the mover's power counter is positive, whatever `turn_count` is;
the early-game restriction is enforced by the search loops instead — in
particular `ai_move_decision` can never select a Remove move while
`turn_count < 10`. -/
theorem ai_move_decision_no_early_remove (s : GameState) (depth : Nat)
    (h : s.turn_count < 10) :
    ∀ x y : Int, ai_move_decision s depth ≠ some (Action.remove, x, y) := by
  intro x y
  exact ai_decision_loop_no_remove _ _ s XInt.negInf none h (fun x1 y1 => by simp) x y

/-- Counterexample to C3 as stated: at `turn_count = 5`, `get_valid_moves`
with removes requested does contain the remove of the engine piece at
`(1, 1)`. -/
theorem get_valid_moves_early_remove_cex :
    exampleEarlyRemove.turn_count < 10 ∧
    0 < exampleEarlyRemove.user_power_moves_remaining ∧
    (Action.remove, 1, 1) ∈ get_valid_moves exampleEarlyRemove true true :=
  ⟨by decide, by decide, by decide⟩

/-- Witness for C3 (amended) on the same board. -/
theorem ai_move_decision_no_early_remove_witness :
    exampleEarlyRemove.turn_count < 10 ∧
    ai_move_decision exampleEarlyRemove 1 ≠ some (Action.remove, 1, 1) :=
  ⟨by decide, ai_move_decision_no_early_remove exampleEarlyRemove 1 (by decide) 1 1⟩

/-! ## C2: a tried block flips the maximizing flag -/

/-- Decomposition of a list whose filtration is a single element. -/
lemma filter_eq_singleton {α : Type} (p : α → Bool) :
    ∀ (l : List α) (a : α), l.filter p = [a] →
      ∃ l1 l2, l = l1 ++ a :: l2 ∧ (∀ b ∈ l1, p b = false) ∧
        (∀ b ∈ l2, p b = false) ∧ p a = true := by
  intro l
  induction l with
  | nil => intro a h; simp at h
  | cons x l ih =>
    intro a h
    by_cases hp : p x = true
    · rw [List.filter_cons_of_pos hp] at h
      injection h with hx hnil
      subst hx
      refine ⟨[], l, by simp, by simp, fun b hb => ?_, hp⟩
      cases hfb : p b
      · rfl
      · exfalso
        have : b ∈ l.filter p := List.mem_filter.mpr ⟨hb, hfb⟩
        rw [hnil] at this
        simp at this
    · rw [List.filter_cons_of_neg hp] at h
      obtain ⟨l1, l2, heq, hl1, hl2, hpa⟩ := ih a h
      refine ⟨x :: l1, l2, by simp [heq], ?_, hl2, hpa⟩
      intro b hb
      rcases List.mem_cons.mp hb with rfl | hb2
      · simpa using hp
      · exact hl1 b hb2

/-- A block-tagged move can only enter `get_valid_moves` through the
block-candidate scan, which only collects empty cells. -/
lemma block_mem_empty (s : GameState) (ib ir : Bool) (x y : Int)
    (h : (Action.block, x, y) ∈ get_valid_moves s ib ir) :
    s.board x y = Cell.empty := by
  unfold get_valid_moves at h
  simp only [List.mem_append] at h
  rcases h with (h | h) | h
  · rcases List.mem_map.mp h with ⟨p, _, hp⟩
    simp at hp
  · have hmem : (Action.block, x, y) ∈
        (empty_cells s).map (fun p => ((Action.block, p.1, p.2) : Move)) := by
      cases ib with
      | false => simp at h
      | true =>
        rw [if_pos rfl] at h
        rcases ht : s.turn <;> rw [ht] at h <;> dsimp only at h
        · by_cases hc : 0 < s.user_blocks_remaining
          · rwa [if_pos hc] at h
          · rw [if_neg hc] at h
            simp at h
        · by_cases hc : 0 < s.ai_blocks_remaining
          · rwa [if_pos hc] at h
          · rw [if_neg hc] at h
            simp at h
    rcases List.mem_map.mp hmem with ⟨p, hpm, hpe⟩
    obtain ⟨px, py⟩ := p
    simp only [Prod.mk.injEq, true_and] at hpe
    obtain ⟨rfl, rfl⟩ := hpe
    simp only [empty_cells, List.mem_filter, decide_eq_true_eq] at hpm
    exact hpm.2
  · exfalso
    have hmem : (Action.block, x, y) ∈
        (opponent_cells s).map (fun p => ((Action.remove, p.1, p.2) : Move)) := by
      cases ir with
      | false => simp at h
      | true =>
        rw [if_pos rfl] at h
        rcases ht : s.turn <;> rw [ht] at h <;> dsimp only at h
        · by_cases hc : 0 < s.user_power_moves_remaining
          · rwa [if_pos hc] at h
          · rw [if_neg hc] at h
            simp at h
        · by_cases hc : 0 < s.ai_power_moves_remaining
          · rwa [if_pos hc] at h
          · rw [if_neg hc] at h
            simp at h
    rcases List.mem_map.mp hmem with ⟨p, _, hpe⟩
    simp at hpe

/-- The maximizing skip conditions ignore `last_move`. -/
lemma skip_max_last_move (s : GameState) (mv : Move) :
    skip_max { s with last_move := none } mv = skip_max s mv := rfl

/-- The Python `max` out of the loop initializer `float('-inf')` is the
other argument. -/
lemma max2_negInf (e : XInt) : XInt.max2 XInt.negInf e = e := by
  cases e <;> rfl

/-- C2 (amended): when the move tried at a maximizing node is a block, the
recursive call at `depth - 1` receives the flipped role (`False`), exactly
as for place and remove — the source does not special-case blocks.
Concretely: on a non-terminal board whose only explored candidate is the
block `(x, y)`, the maximizing search value is the minimizing child value of
the blocked position. -/
theorem minimax_block_child_flips_role (s : GameState) (d : Nat)
    (alpha beta : XInt) (x y : Int) (hterm : is_terminal s = false)
    (hf : (get_valid_moves s true true).filter (fun mv => !skip_max s mv) =
      [(Action.block, x, y)]) :
    minimax (d + 1) s alpha beta true =
      minimax d (apply_block_max s x y) alpha beta false := by
  obtain ⟨l1, l2, heq, hl1, hl2, hmv⟩ :=
    filter_eq_singleton (fun mv => !skip_max s mv) _ _ hf
  have hl1' : ∀ mv ∈ l1, skip_max s mv = true := by
    intro mv hm
    simpa using hl1 mv hm
  have hl2' : ∀ mv ∈ l2, skip_max s mv = true := by
    intro mv hm
    simpa using hl2 mv hm
  have hnskip : skip_max s (Action.block, x, y) = false := by
    simpa using hmv
  have hempty : s.board x y = Cell.empty := by
    refine block_mem_empty s true true x y ?_
    rw [heq]
    simp
  rw [minimax]
  simp only [hterm, Bool.false_eq_true, if_false, if_true]
  rw [heq, maxLoop_append_skipped _ _ _ _ _ _ _ hl1', maxLoop]
  have h1 : ¬ lrt_skip s x y = true := by
    intro hls
    simp [skip_max, hls] at hnskip
  rw [if_neg h1]
  rw [if_neg (by simp :
    ¬ (Action.block == Action.remove && decide (s.turn_count < 10)) = true)]
  have h3 : ¬ s.ai_blocks_remaining ≤ 0 := by
    intro hb
    simp [skip_max, hb] at hnskip
  rw [if_neg h3]
  dsimp only
  rw [block_max_restore s x y hempty, max2_negInf]
  split
  · rfl
  · rw [maxLoop_all_skipped]
    intro mv hm
    rw [skip_max_last_move]
    exact hl2' mv hm

/-- Counterexample to C2 as stated: on a concrete board, the search of the
source differs from the variant whose block recursion keeps the maximizing
role, so the flag is flipped for blocks. -/
theorem minimax_block_keeps_role_cex :
    minimax 2 exampleSingleBlock XInt.negInf XInt.posInf true ≠
      minimaxSpecBK 2 exampleSingleBlock XInt.negInf XInt.posInf true := by
  decide

/-- Witness for C2 (amended): on `exampleSingleBlock` the only explored
candidate is the block of `(2, 2)` and the depth-1 maximizing value is the
minimizing evaluation of the blocked position. -/
theorem minimax_block_child_flips_role_witness :
    is_terminal exampleSingleBlock = false ∧
    (get_valid_moves exampleSingleBlock true true).filter
      (fun mv => !skip_max exampleSingleBlock mv) = [(Action.block, 2, 2)] ∧
    minimax 1 exampleSingleBlock XInt.negInf XInt.posInf true =
      minimax 0 (apply_block_max exampleSingleBlock 2 2)
        XInt.negInf XInt.posInf false :=
  ⟨by decide, by decide,
   minimax_block_child_flips_role exampleSingleBlock 0 XInt.negInf XInt.posInf 2 2
     (by decide) (by decide)⟩

/-! ## C7: the evaluator -/

lemma foldl_add_sum (g : Nat → Int) (n : Nat) (c : Int) :
    (List.range n).foldl (fun a i => a + g i) c = c + ∑ i ∈ Finset.range n, g i := by
  induction n with
  | zero => simp
  | succ n ihn =>
    rw [List.range_succ, List.foldl_append, ihn, Finset.sum_range_succ]
    simp only [List.foldl]
    ring

lemma foldl_condadd (p : Nat → Prop) [DecidablePred p] (g : Nat → Int) (n : Nat)
    (c : Int) :
    (List.range n).foldl (fun a i => if p i then a + g i else a) c
      = c + ∑ i ∈ Finset.range n, if p i then g i else 0 := by
  induction n with
  | zero => simp
  | succ n ihn =>
    rw [List.range_succ, List.foldl_append, ihn, Finset.sum_range_succ]
    simp only [List.foldl]
    split <;> ring

lemma foldl_congr_fun {α β : Type} (f g : α → β → α) (l : List β) (a : α)
    (h : ∀ acc b, f acc b = g acc b) : l.foldl f a = l.foldl g a := by
  induction l generalizing a with
  | nil => rfl
  | cons x l ih =>
    simp only [List.foldl]
    rw [h]
    exact ih _

/-- The per-player double grid loop of `heuristic_evaluation` computes the
double finite sum `sum_position`. -/
lemma player_total_eq_sum (s : GameState) (p : Cell) :
    player_total s p = sum_position s p := by
  unfold player_total sum_position
  rw [foldl_congr_fun _
    (fun acc xi => acc + ∑ yi ∈ Finset.range s.size,
      if s.board (Int.ofNat xi) (Int.ofNat yi) = p then
        evaluate_position s (Int.ofNat xi) (Int.ofNat yi) p else 0) _ 0
    (fun acc xi =>
      foldl_condadd (fun yi => s.board (Int.ofNat xi) (Int.ofNat yi) = p) _ _ acc)]
  rw [foldl_add_sum]
  simp

/-- The player loop of `heuristic_evaluation` unfolds to the difference of
the two occupied-cell sums with the two power-move terms. -/
lemma heuristic_evaluation_eq (s : GameState) :
    heuristic_evaluation s =
      sum_position s Cell.O - sum_position s Cell.X
        - (3 - s.ai_power_moves_remaining) * 50
        + (3 - s.user_power_moves_remaining) * 50 := by
  unfold heuristic_evaluation
  simp only [List.foldl, if_true]
  rw [if_neg (by simp : ¬ (Cell.X = Cell.O))]
  rw [player_total_eq_sum, player_total_eq_sum]
  ring

/-- C7: `evaluate` returns `10000` when the last move exists, holds the
engine piece and wins; `-10000` when it holds the human piece and wins; and
otherwise the heuristic score, which equals the sum of `evaluate_position`
over engine-occupied cells minus the sum over human-occupied cells, minus
`50` per power move already spent by the engine, plus `50` per power move
already spent by the human. -/
theorem evaluate_characterization (s : GameState) :
    ((∃ x y : Int, s.last_move = some (x, y) ∧ s.board x y = Cell.O ∧
        check_win_b s x y = true) → evaluate s = 10000) ∧
    ((∃ x y : Int, s.last_move = some (x, y) ∧ s.board x y = Cell.X ∧
        check_win_b s x y = true) → evaluate s = -10000) ∧
    ((∀ x y : Int, s.last_move = some (x, y) →
        ¬(s.board x y = Cell.O ∧ check_win_b s x y = true) ∧
        ¬(s.board x y = Cell.X ∧ check_win_b s x y = true)) →
      evaluate s = heuristic_evaluation s) ∧
    heuristic_evaluation s =
      sum_position s Cell.O - sum_position s Cell.X
        - (3 - s.ai_power_moves_remaining) * 50
        + (3 - s.user_power_moves_remaining) * 50 := by
  refine ⟨?_, ?_, ?_, heuristic_evaluation_eq s⟩
  · rintro ⟨x, y, hlm, hcell, hwin⟩
    unfold evaluate
    rw [hlm]
    dsimp only
    rw [if_pos ⟨hcell, hwin⟩]
  · rintro ⟨x, y, hlm, hcell, hwin⟩
    unfold evaluate
    rw [hlm]
    dsimp only
    rw [if_neg (by simp [hcell]), if_pos ⟨hcell, hwin⟩]
  · intro hno
    unfold evaluate
    rcases hlm : s.last_move with _ | ⟨x, y⟩
    · rfl
    · have hxy := hno x y hlm
      dsimp only
      rw [if_neg hxy.1, if_neg hxy.2]

/-- Witness for C7: the engine win row of `exampleRowWin` evaluates to
`10000`. -/
theorem evaluate_characterization_witness :
    evaluate exampleRowWin = 10000 :=
  (evaluate_characterization exampleRowWin).1 ⟨0, 4, rfl, by decide, by decide⟩

/-! ## C6: win detection

The scanning loop `walk` is sound (every counted cell is in bounds and holds
the scanned piece) and complete (a contiguous run is fully counted as long as
the fuel suffices); runs of in-bounds cells along an axis direction are
shorter than `size`, so the fuel `size` passed by `check_win` suffices. -/

lemma walk_sound (s : GameState) (p : Cell) (dx dy : Int) :
    ∀ (fuel : Nat) (nx ny : Int) (t : Nat),
      t < (walk s p dx dy fuel nx ny).1.length →
      inb s (nx + (t : Int) * dx) (ny + (t : Int) * dy) = true ∧
      s.board (nx + (t : Int) * dx) (ny + (t : Int) * dy) = p := by
  intro fuel
  induction fuel with
  | zero =>
    intro nx ny t ht
    simp [walk] at ht
  | succ f ih =>
    intro nx ny t ht
    rw [walk] at ht
    by_cases hc : (inb s nx ny && decide (s.board nx ny = p)) = true
    · rw [if_pos hc] at ht
      dsimp only at ht
      simp only [List.length_cons] at ht
      rw [Bool.and_eq_true, decide_eq_true_eq] at hc
      cases t with
      | zero => simpa using hc
      | succ t2 =>
        have hrec := ih (nx + dx) (ny + dy) t2 (by omega)
        have hx : nx + ((t2 + 1 : Nat) : Int) * dx = (nx + dx) + (t2 : Int) * dx := by
          push_cast
          ring
        have hy : ny + ((t2 + 1 : Nat) : Int) * dy = (ny + dy) + (t2 : Int) * dy := by
          push_cast
          ring
        rw [hx, hy]
        exact hrec
    · rw [if_neg hc] at ht
      simp at ht

lemma walk_complete (s : GameState) (p : Cell) (dx dy : Int) :
    ∀ (fuel : Nat) (nx ny : Int) (k : Nat), k ≤ fuel →
      (∀ t : Nat, t < k →
        inb s (nx + (t : Int) * dx) (ny + (t : Int) * dy) = true ∧
        s.board (nx + (t : Int) * dx) (ny + (t : Int) * dy) = p) →
      k ≤ (walk s p dx dy fuel nx ny).1.length := by
  intro fuel
  induction fuel with
  | zero =>
    intro nx ny k hk _
    omega
  | succ f ih =>
    intro nx ny k hk hall
    cases k with
    | zero => exact Nat.zero_le _
    | succ k2 =>
      have h0 := hall 0 (by omega)
      simp only [Nat.cast_zero, zero_mul, add_zero] at h0
      have hc : (inb s nx ny && decide (s.board nx ny = p)) = true := by
        rw [Bool.and_eq_true, decide_eq_true_eq]
        exact h0
      rw [walk, if_pos hc]
      dsimp only
      simp only [List.length_cons]
      have hshift : ∀ t : Nat, t < k2 →
          inb s ((nx + dx) + (t : Int) * dx) ((ny + dy) + (t : Int) * dy) = true ∧
          s.board ((nx + dx) + (t : Int) * dx) ((ny + dy) + (t : Int) * dy) = p := by
        intro t htk
        have h2 := hall (t + 1) (by omega)
        have hx : nx + ((t + 1 : Nat) : Int) * dx = (nx + dx) + (t : Int) * dx := by
          push_cast
          ring
        have hy : ny + ((t + 1 : Nat) : Int) * dy = (ny + dy) + (t : Int) * dy := by
          push_cast
          ring
        rw [hx, hy] at h2
        exact h2
      have := ih (nx + dx) (ny + dy) k2 (by omega) hshift
      omega

/-- A run of in-bounds cells along one of the four axis directions has at
most `size` cells. -/
lemma run_le_size (n : Nat) (x0 y0 dx dy : Int) (k : Nat)
    (hdx : dx = 1 ∨ dx = -1 ∨ dx = 0) (hdy : dy = 1 ∨ dy = -1 ∨ dy = 0)
    (hnz : ¬(dx = 0 ∧ dy = 0))
    (h : ∀ t : Nat, t < k →
      0 ≤ x0 + (t : Int) * dx ∧ x0 + (t : Int) * dx < (n : Int) ∧
      0 ≤ y0 + (t : Int) * dy ∧ y0 + (t : Int) * dy < (n : Int)) : k ≤ n := by
  rcases Nat.eq_zero_or_pos k with rfl | hkpos
  · omega
  have h0 := h 0 (by omega)
  have hk := h (k - 1) (by omega)
  have hcast : ((k - 1 : Nat) : Int) = (k : Int) - 1 := by omega
  rw [hcast] at hk
  rcases hdx with rfl | rfl | rfl <;> rcases hdy with rfl | rfl | rfl <;>
    [skip; skip; skip; skip; skip; skip; skip; skip;
     exact absurd ⟨rfl, rfl⟩ hnz] <;>
    (simp only [mul_one, mul_neg_one, mul_zero, add_zero] at h0 hk
     omega)

/-- One direction iteration of `check_win` detects a win exactly when the
scanned cell lies on a contiguous in-bounds run of `target` identical
pieces along that axis. -/
lemma winInDir_isSome_iff (s : GameState) (x y dx dy : Int)
    (hx : inb s x y = true) (ht : 0 < s.target)
    (hdx : dx = 1 ∨ dx = -1 ∨ dx = 0) (hdy : dy = 1 ∨ dy = -1 ∨ dy = 0)
    (hnz : ¬(dx = 0 ∧ dy = 0)) :
    (winInDir s (s.board x y) x y dx dy).isSome = true ↔ HasRun s x y dx dy := by
  have hdx2 : -dx = 1 ∨ -dx = -1 ∨ -dx = 0 := by
    rcases hdx with rfl | rfl | rfl <;> simp
  have hdy2 : -dy = 1 ∨ -dy = -1 ∨ -dy = 0 := by
    rcases hdy with rfl | rfl | rfl <;> simp
  have hnz2 : ¬(-dx = 0 ∧ -dy = 0) := by
    rintro ⟨h1, h2⟩
    exact hnz ⟨by omega, by omega⟩
  unfold winInDir
  dsimp only
  set P := (walk s (s.board x y) dx dy s.size (x + dx) (y + dy)).1.length with hP
  set N := (walk s (s.board x y) (-dx) (-dy) s.size (x - dx) (y - dy)).1.length with hN
  split_ifs with hc
  · simp only [Option.isSome_some, true_iff]
    refine ⟨min N (s.target - 1), by omega, ?_⟩
    intro t htt
    rcases lt_trichotomy t (min N (s.target - 1)) with hlt | heqt | hgt
    · have hws := walk_sound s (s.board x y) (-dx) (-dy) s.size (x - dx) (y - dy)
        (min N (s.target - 1) - t - 1) (by omega)
      have hc1 : ((min N (s.target - 1) - t - 1 : Nat) : Int)
          = ((min N (s.target - 1) : Nat) : Int) - (t : Int) - 1 := by omega
      have hco1 : (x - dx) + ((min N (s.target - 1) - t - 1 : Nat) : Int) * (-dx)
          = x + ((t : Int) - ((min N (s.target - 1) : Nat) : Int)) * dx := by
        rw [hc1]
        ring
      have hco2 : (y - dy) + ((min N (s.target - 1) - t - 1 : Nat) : Int) * (-dy)
          = y + ((t : Int) - ((min N (s.target - 1) : Nat) : Int)) * dy := by
        rw [hc1]
        ring
      rw [hco1, hco2] at hws
      exact hws
    · rw [heqt]
      simp only [sub_self, zero_mul, add_zero]
      exact ⟨hx, trivial⟩
    · have hiN : min N (s.target - 1) = N := by omega
      have hws := walk_sound s (s.board x y) dx dy s.size (x + dx) (y + dy)
        (t - min N (s.target - 1) - 1) (by omega)
      have hc1 : ((t - min N (s.target - 1) - 1 : Nat) : Int)
          = (t : Int) - ((min N (s.target - 1) : Nat) : Int) - 1 := by omega
      have hco1 : (x + dx) + ((t - min N (s.target - 1) - 1 : Nat) : Int) * dx
          = x + ((t : Int) - ((min N (s.target - 1) : Nat) : Int)) * dx := by
        rw [hc1]
        ring
      have hco2 : (y + dy) + ((t - min N (s.target - 1) - 1 : Nat) : Int) * dy
          = y + ((t : Int) - ((min N (s.target - 1) : Nat) : Int)) * dy := by
        rw [hc1]
        ring
      rw [hco1, hco2] at hws
      exact hws
  · simp only [Option.isSome_none, Bool.false_eq_true, false_iff]
    rintro ⟨i, hi, hall⟩
    apply hc
    have hposfacts : ∀ t : Nat, t < s.target - 1 - i →
        inb s ((x + dx) + (t : Int) * dx) ((y + dy) + (t : Int) * dy) = true ∧
        s.board ((x + dx) + (t : Int) * dx) ((y + dy) + (t : Int) * dy) =
          s.board x y := by
      intro t htk
      have h2 := hall (i + 1 + t) (by omega)
      have hc1 : ((i + 1 + t : Nat) : Int) - (i : Int) = (t : Int) + 1 := by omega
      have hco1 : x + (((i + 1 + t : Nat) : Int) - (i : Int)) * dx
          = (x + dx) + (t : Int) * dx := by
        rw [hc1]
        ring
      have hco2 : y + (((i + 1 + t : Nat) : Int) - (i : Int)) * dy
          = (y + dy) + (t : Int) * dy := by
        rw [hc1]
        ring
      rw [hco1, hco2] at h2
      exact h2
    have hnegfacts : ∀ t : Nat, t < i →
        inb s ((x - dx) + (t : Int) * (-dx)) ((y - dy) + (t : Int) * (-dy)) = true ∧
        s.board ((x - dx) + (t : Int) * (-dx)) ((y - dy) + (t : Int) * (-dy)) =
          s.board x y := by
      intro t htk
      have h2 := hall (i - 1 - t) (by omega)
      have hc1 : ((i - 1 - t : Nat) : Int) - (i : Int) = -((t : Int) + 1) := by omega
      have hco1 : x + (((i - 1 - t : Nat) : Int) - (i : Int)) * dx
          = (x - dx) + (t : Int) * (-dx) := by
        rw [hc1]
        ring
      have hco2 : y + (((i - 1 - t : Nat) : Int) - (i : Int)) * dy
          = (y - dy) + (t : Int) * (-dy) := by
        rw [hc1]
        ring
      rw [hco1, hco2] at h2
      exact h2
    have hP1 : s.target - 1 - i ≤ P := by
      refine walk_complete s (s.board x y) dx dy s.size (x + dx) (y + dy) _ ?_ hposfacts
      refine run_le_size s.size (x + dx) (y + dy) dx dy _ hdx hdy hnz ?_
      intro t htk
      have hib := (hposfacts t htk).1
      rw [inb_iff] at hib
      exact hib
    have hN1 : i ≤ N := by
      refine walk_complete s (s.board x y) (-dx) (-dy) s.size (x - dx) (y - dy) _
        ?_ hnegfacts
      refine run_le_size s.size (x - dx) (y - dy) (-dx) (-dy) _ hdx2 hdy2 hnz2 ?_
      intro t htk
      have hib := (hnegfacts t htk).1
      rw [inb_iff] at hib
      exact hib
    omega

/-- C6: for any in-bounds coordinate and positive target, `check_win(x, y)`
is true exactly when the cell holds a player piece (never Blocked or Empty)
and lies on a contiguous same-piece in-bounds run of length `target` along
one of the four axes — so wins are detected at any position, and never
across a Blocked or Empty interruption (every cell of the detected run holds
the same player piece). -/
theorem check_win_characterization (s : GameState) (x y : Int)
    (hx : inb s x y = true) (ht : 0 < s.target) :
    check_win_b s x y = true ↔
      ((s.board x y = Cell.X ∨ s.board x y = Cell.O) ∧
        ∃ d ∈ dirList, HasRun s x y d.1 d.2) := by
  unfold check_win_b check_win_seq
  by_cases hg : s.board x y = Cell.B ∨ s.board x y = Cell.empty
  · rw [if_pos hg]
    simp only [Option.isSome_none, Bool.false_eq_true, false_iff]
    rintro ⟨hcell, -⟩
    rcases hg with hg | hg <;> rcases hcell with hc | hc <;> rw [hg] at hc <;>
      simp at hc
  · rw [if_neg hg]
    dsimp only
    have hXO : s.board x y = Cell.X ∨ s.board x y = Cell.O := by
      cases hcell : s.board x y
      · exact absurd (Or.inr hcell) hg
      · exact Or.inl rfl
      · exact Or.inr rfl
      · exact absurd (Or.inl hcell) hg
    have e1 := winInDir_isSome_iff s x y 0 1 hx ht (by simp) (by simp) (by simp)
    have e2 := winInDir_isSome_iff s x y 1 0 hx ht (by simp) (by simp) (by simp)
    have e3 := winInDir_isSome_iff s x y 1 1 hx ht (by simp) (by simp) (by simp)
    have e4 := winInDir_isSome_iff s x y (-1) 1 hx ht (by norm_num) (by simp)
      (by norm_num)
    have hcas : (match winInDir s (s.board x y) x y 0 1 with
        | some q => some q
        | none =>
          match winInDir s (s.board x y) x y 1 0 with
          | some q => some q
          | none =>
            match winInDir s (s.board x y) x y 1 1 with
            | some q => some q
            | none => winInDir s (s.board x y) x y (-1) 1).isSome = true ↔
        (HasRun s x y 0 1 ∨ HasRun s x y 1 0 ∨ HasRun s x y 1 1 ∨
          HasRun s x y (-1) 1) := by
      rw [← e1, ← e2, ← e3, ← e4]
      rcases winInDir s (s.board x y) x y 0 1 with _ | q1 <;>
        rcases winInDir s (s.board x y) x y 1 0 with _ | q2 <;>
        rcases winInDir s (s.board x y) x y 1 1 with _ | q3 <;>
        rcases winInDir s (s.board x y) x y (-1) 1 with _ | q4 <;>
        simp
    rw [hcas]
    constructor
    · intro hd
      refine ⟨hXO, ?_⟩
      rcases hd with h | h | h | h
      · exact ⟨(0, 1), by simp [dirList], h⟩
      · exact ⟨(1, 0), by simp [dirList], h⟩
      · exact ⟨(1, 1), by simp [dirList], h⟩
      · exact ⟨(-1, 1), by simp [dirList], h⟩
    · rintro ⟨-, d, hd, hrun⟩
      simp only [dirList, List.mem_cons, List.not_mem_nil, or_false] at hd
      rcases hd with rfl | rfl | rfl | rfl
      · exact Or.inl hrun
      · exact Or.inr (Or.inl hrun)
      · exact Or.inr (Or.inr (Or.inl hrun))
      · exact Or.inr (Or.inr (Or.inr hrun))

/-- Witness for C6: the middle cell `(0, 2)` of the engine's winning row is
detected as a win. -/
theorem check_win_characterization_witness :
    check_win_b exampleRowWin 0 2 = true :=
  (check_win_characterization exampleRowWin 0 2 (by decide) (by decide)).mpr
    ⟨Or.inr (by decide), ⟨(0, 1), by decide, 2, by decide, by decide⟩⟩

end ConnectZ
